import Mathlib

/-!
Shallow embedding of `wordllama/inference.py` (class `WordLlamaInference`).

Numeric conventions: the Python code computes with numpy float32 / int32 /
uint64 arrays.  Dense values are modelled exactly over `ℚ`; matrices are
lists of row lists; packed binary codes are 64-bit words modelled as `ℕ`.
`np.linalg.norm` takes a square root, which has no exact rational value, so
every definition that needs it is parametrised by an arbitrary function
`sqrt : ℚ → ℚ`; all theorems below hold for every such function, hence in
particular for the floating-point square root.
-/

namespace WordLlama

/-- Row-by-row dot product, the scalar kernel of `a @ b.T`. -/
def dot (a b : List ℚ) : ℚ :=
  ((a.zip b).map fun p => p.1 * p.2).sum

/-- `a @ b.T` for row-major matrices: entry `(i, j)` is `dot (a i) (b j)`. -/
def matmulT (a b : List (List ℚ)) : List (List ℚ) :=
  a.map fun ra => b.map fun rb => dot ra rb

/-- Componentwise sum of a list of `dim`-vectors (`np.sum(..., axis=1)`). -/
def vsum (dim : ℕ) (l : List (List ℚ)) : List ℚ :=
  l.foldr (fun v acc => List.zipWith (· + ·) v acc) (List.replicate dim 0)

/-- One row of `avg_pool`: from the source,
`np.sum(x * mask[..., np.newaxis], axis=1) / np.maximum(mask.sum(axis=1), 1.0)`
applied to a single text of token vectors `xi` and mask row `mi`. -/
def avg_pool_row (dim : ℕ) (xi : List (List ℚ)) (mi : List ℚ) : List ℚ :=
  let mask_sum : ℚ := max mi.sum 1
  (vsum dim ((xi.zip mi).map fun tm => tm.1.map (· * tm.2))).map (· / mask_sum)

/-- `WordLlamaInference.avg_pool` over a whole batch: masked average pooling
of `x : [batch, seq, dim]` with `mask : [batch, seq]`. -/
def avg_pool (dim : ℕ) (x : List (List (List ℚ))) (mask : List (List ℚ)) :
    List (List ℚ) :=
  (x.zip mask).map fun xm => avg_pool_row dim xm.1 xm.2

/-- `WordLlamaInference.normalize_embeddings`: divide each row by its own L2
norm `sqrt (Σ c²)` (`np.linalg.norm(embeddings, axis=1, keepdims=True)`);
the square root is the abstract parameter `sqrt`. -/
def normalize_embeddings (sqrt : ℚ → ℚ) (e : List (List ℚ)) : List (List ℚ) :=
  e.map fun v => v.map (· / sqrt ((v.map fun c => c * c).sum))

/-- The test `(a == b).all()` from `cosine_similarity`, for operands whose
elementwise comparison is defined (see `np_rows_broadcastable`; numpy
raises on the others before `.all()` is ever reached, so the final `false`
arm below is unreachable there and callers model that error separately).
numpy `==` compares elementwise with row broadcasting: equal row counts
compare row-by-row, a single-row operand is broadcast against every row of
the other, and `.all()` over an empty comparison is vacuously `True`. -/
def npEqAll (a b : List (List ℚ)) : Bool :=
  if a.length = b.length then a == b
  else if b.length = 1 then a.all fun ra => ra == b.headD []
  else if a.length = 1 then b.all fun rb => rb == a.headD []
  else false

/-- On numpy >= 1.25 (the versions contemporary with this repository) the
elementwise comparison `a == b` raises a `ValueError` when the operand
shapes do not broadcast.  The operands here are batches of embedding rows
sharing the embedding dimension as their column count, so the row axis
alone decides broadcastability: the row counts must be equal, or one of
them must be 1. -/
def np_rows_broadcastable (a b : List (List ℚ)) : Bool :=
  a.length == b.length || a.length == 1 || b.length == 1

/-- `WordLlamaInference.cosine_similarity`: when `(a == b).all()` holds,
normalize `a` once and reuse it for `b`; otherwise normalize both
independently; then return `a @ b.T`. -/
def cosine_similarity (sqrt : ℚ → ℚ) (a b : List (List ℚ)) : List (List ℚ) :=
  if npEqAll a b then
    matmulT (normalize_embeddings sqrt a) (normalize_embeddings sqrt a)
  else
    matmulT (normalize_embeddings sqrt a) (normalize_embeddings sqrt b)

/-- The general path stated by the spec for comparison: always normalize the
two operands independently, then `a @ b.T`. -/
def cosine_similarity_twice (sqrt : ℚ → ℚ) (a b : List (List ℚ)) :
    List (List ℚ) :=
  matmulT (normalize_embeddings sqrt a) (normalize_embeddings sqrt b)

/-- Population count of a 64-bit word (number of set bits among bits 0..63). -/
def popcount64 (n : ℕ) : ℕ :=
  (List.range 64).countP fun i => n.testBit i

/-- Modelled from the spec: `hamming_distance` lives in a Cython extension
(`wordllama.algorithms`) not present in the sources; the spec describes it as
"bitwise XOR + population count, summed across all `dim/64` words" for one
pair of packed codes. -/
def hamming_dist_pair (ra rb : List ℕ) : ℕ :=
  ((ra.zip rb).map fun p => popcount64 (p.1 ^^^ p.2)).sum

/-- Modelled from the spec: pairwise Hamming distance matrix between every
row of `a` and every row of `b`. -/
def hamming_distance (a b : List (List ℕ)) : List (List ℕ) :=
  a.map fun ra => b.map fun rb => hamming_dist_pair ra rb

/-- `WordLlamaInference.hamming_similarity`: `max_dist = a.shape[1] * 64`,
then `1.0 - 2.0 * (dist / max_dist)` elementwise on the distance matrix. -/
def hamming_similarity (a b : List (List ℕ)) : List (List ℚ) :=
  (hamming_distance a b).map fun row => row.map fun d : ℕ =>
    1 - 2 * ((d : ℚ) / (((a.headD []).length * 64 : ℕ) : ℚ))

/-- A numpy array argument that is either 1-D or 2-D, as accepted by
`vector_similarity`. -/
inductive NpArr (α : Type) where
  | vec (v : List α)
  | mat (m : List (List α))

/-- `np.expand_dims(·, axis=0)` applied to 1-D inputs by `vector_similarity`:
a 1-D vector becomes a single-row matrix, a 2-D input is left unchanged. -/
def expand_dims {α : Type} : NpArr α → List (List α)
  | .vec v => [v]
  | .mat m => m

/-- `WordLlamaInference.vector_similarity` in dense mode (`binary = False`):
promote to 2-D, then `cosine_similarity`.  The first step of
`cosine_similarity`'s body is the comparison `(a == b)`, which on
numpy >= 1.25 raises a `ValueError` for non-broadcastable row counts
before any similarity is computed — modelled by the guard below. -/
def vector_similarity_dense (sqrt : ℚ → ℚ) (a b : NpArr ℚ) :
    Except String (List (List ℚ)) :=
  if np_rows_broadcastable (expand_dims a) (expand_dims b) then
    .ok (cosine_similarity sqrt (expand_dims a) (expand_dims b))
  else
    .error "ValueError: operands could not be broadcast together"

/-- `WordLlamaInference.vector_similarity` in binary mode (`binary = True`):
promote to 2-D, then `hamming_similarity` on the packed codes. -/
def vector_similarity_binary (a b : NpArr ℕ) : List (List ℚ) :=
  hamming_similarity (expand_dims a) (expand_dims b)

/-- Result of `np.squeeze` on a `1 × n` score matrix: for `n = 1` every axis
has length one and the result is a 0-d scalar, otherwise a 1-D vector. -/
inductive Squeezed where
  | scalar (x : ℚ)
  | vec (xs : List ℚ)

/-- `scores.squeeze()` applied to the single row of the `1 × n` similarity
matrix produced by `vector_similarity(query_embedding[0], doc_embeddings)`. -/
def squeeze_row : List ℚ → Squeezed
  | [x] => .scalar x
  | xs => .vec xs

/-- The key relation of `similarities.sort(key=lambda x: x[1], reverse=True)`:
`p` may stay before `q` iff `p`'s score is at least `q`'s. -/
def scoreGE (p q : String × ℚ) : Prop := q.2 ≤ p.2

instance : DecidableRel scoreGE := fun p q =>
  inferInstanceAs (Decidable (q.2 ≤ p.2))

instance : IsTotal (String × ℚ) scoreGE := ⟨fun p q => le_total q.2 p.2⟩

instance : IsTrans (String × ℚ) scoreGE :=
  ⟨fun _ _ _ h1 h2 => le_trans h2 h1⟩

/-- Python's `list.sort(key=lambda x: x[1], reverse=True)` is a stable sort
descending by score; modelled as insertion sort with `scoreGE`, which is
stable and sorts descending. -/
def sort_by_score_desc (l : List (String × ℚ)) : List (String × ℚ) :=
  List.insertionSort scoreGE l

/-- `WordLlamaInference.rank` after the embedding steps: the `1 × n` score
matrix is squeezed, `tolist`-ed, zipped with `docs` and stably sorted
descending.  A 0-d squeeze result is a Python scalar and
`zip(docs, scalar)` raises `TypeError`. -/
def rank (docs : List String) (score_row : List ℚ) :
    Except String (List (String × ℚ)) :=
  match squeeze_row score_row with
  | .scalar _ => .error "TypeError: zip argument 2 must support iteration"
  | .vec scores => .ok (sort_by_score_desc (docs.zip scores))

/-- `WordLlamaInference.filter` after the embedding steps: squeeze the score
matrix, keep candidates with score strictly greater than `threshold`.
Iterating a 0-d array in `zip` raises `TypeError`. -/
def filter (candidates : List String) (score_row : List ℚ) (threshold : ℚ) :
    Except String (List String) :=
  match squeeze_row score_row with
  | .scalar _ => .error "TypeError: iteration over a 0-d array"
  | .vec scores =>
      .ok (((candidates.zip scores).filter fun p => threshold < p.2).map Prod.fst)

/-- The selection step of `WordLlamaInference.deduplicate`:
`[doc for idx, doc in enumerate(docs) if idx not in duplicate_indices]`,
for an arbitrary set `dup` of duplicate indices returned by the
`process_batches_cy` collaborator. -/
def deduplicate_select (dup : ℕ → Bool) (docs : List String) : List String :=
  ((List.enumFrom 0 docs).filter fun p => !dup p.1).map Prod.snd

/-- A Python value handed to `embed` inside the `texts` list: a string or
any non-string object. -/
inductive PyVal where
  | str (s : String)
  | other
deriving DecidableEq

/-- `isinstance(v, str)`. -/
def PyVal.isStr : PyVal → Bool
  | .str _ => true
  | .other => false

/-- The input validation at the top of `WordLlamaInference.embed` for list
inputs: `if texts and not isinstance(texts[0], str): raise TypeError(...)` —
only the first element of a non-empty list is inspected. -/
def embed_check (texts : List PyVal) : Except String (List PyVal) :=
  match texts with
  | [] => .ok []
  | t :: ts =>
      if t.isStr then .ok (t :: ts)
      else .error "TypeError: All elements in texts must be strings"

/-- `np.clip(input_ids, 0, self.embedding.shape[0] - 1)` on one token id. -/
def clip_id (vocab_size : ℕ) (id : ℤ) : ℤ :=
  max 0 (min id ((vocab_size : ℤ) - 1))

/-- The row gather `self.embedding[input_ids]` for one clamped token id. -/
def gather_row (embedding : List (List ℚ)) (id : ℤ) : List ℚ :=
  embedding.getD (clip_id embedding.length id).toNat []

/-- The preallocation in `embed`:
`np.empty((num_texts, embedding_dim))` with
`embedding_dim = self.embedding.shape[1]` — the full dense column count is
used regardless of `self.binary`. -/
def embed_prealloc_shape (num_texts dim : ℕ) : ℕ × ℕ := (num_texts, dim)

/-- Modelled from the spec: `binarize_and_packbits` (Cython collaborator)
packs 64 consecutive sign bits per unsigned 64-bit word, so a batch of
`dim`-vectors becomes a matrix with `dim / 64` columns. -/
def packbits_cols (dim : ℕ) : ℕ := dim / 64

/-- numpy broadcast compatibility of the batch fill
`pooled_embeddings[i : i + n] = batch_embeddings` along the column axis:
the source columns must equal the target columns or be 1. -/
def slice_assign_ok (target_cols src_cols : ℕ) : Bool :=
  src_cols == target_cols || src_cols == 1

/-! ### Helper lemmas -/

lemma enumFrom_filter_map_sublist (p : ℕ × String → Bool) (l : List String) :
    ∀ k : ℕ, (((List.enumFrom k l).filter p).map Prod.snd).Sublist l := by
  induction l with
  | nil => intro k; simp
  | cons x xs ih =>
      intro k
      rw [List.enumFrom, List.filter_cons]
      by_cases hp : p (k, x)
      · rw [if_pos hp, List.map_cons]
        exact (ih (k + 1)).cons₂ x
      · rw [if_neg hp]
        exact (ih (k + 1)).cons x

lemma sum_nonneg_01 (mi : List ℚ) (h01 : ∀ m ∈ mi, m = 0 ∨ m = 1) :
    0 ≤ mi.sum := by
  induction mi with
  | nil => simp
  | cons a as ih =>
      have ha := h01 a (by simp)
      have has : 0 ≤ as.sum := ih fun m hm => h01 m (List.mem_cons_of_mem _ hm)
      rcases ha with h | h <;> rw [List.sum_cons, h] <;> linarith

lemma mask_all_zero (mi : List ℚ) (h01 : ∀ m ∈ mi, m = 0 ∨ m = 1)
    (hsum : mi.sum = 0) : ∀ m ∈ mi, m = 0 := by
  induction mi with
  | nil => simp
  | cons a as ih =>
      have has : ∀ m ∈ as, m = 0 ∨ m = 1 := fun m hm =>
        h01 m (List.mem_cons_of_mem _ hm)
      have hnn : 0 ≤ as.sum := sum_nonneg_01 as has
      rcases h01 a (by simp) with h0 | h1
      · have hs : as.sum = 0 := by rw [List.sum_cons, h0] at hsum; linarith
        intro m hm
        rcases List.mem_cons.mp hm with rfl | hm
        · exact h0
        · exact ih has hs m hm
      · exfalso
        rw [List.sum_cons, h1] at hsum
        linarith

lemma vsum_zero (dim : ℕ) (l : List (List ℚ))
    (h : ∀ v ∈ l, v = List.replicate dim 0) :
    vsum dim l = List.replicate dim 0 := by
  induction l with
  | nil => rfl
  | cons v vs ih =>
      have hv := h v (by simp)
      have hvs := ih fun u hu => h u (List.mem_cons_of_mem _ hu)
      show List.zipWith (· + ·) v (vsum dim vs) = List.replicate dim 0
      rw [hv, hvs]
      simp [List.zipWith_replicate]

lemma map_length_map_map {α β γ : Type} (g : α → β → γ) (a : List α)
    (b : List β) :
    ((a.map fun ra => b.map fun rb => g ra rb).map List.length) =
      List.replicate a.length b.length := by
  rw [List.map_map]
  simp only [Function.comp_def, List.length_map]
  exact List.map_const' _ _

lemma map_length_matmulT (a b : List (List ℚ)) :
    (matmulT a b).map List.length = List.replicate a.length b.length :=
  map_length_map_map dot a b

lemma hamming_similarity_eq_map (a b : List (List ℕ)) :
    hamming_similarity a b = a.map fun ra => b.map fun rb =>
      1 - 2 * ((hamming_dist_pair ra rb : ℚ) /
        (((a.headD []).length * 64 : ℕ) : ℚ)) := by
  unfold hamming_similarity hamming_distance
  rw [List.map_map]
  congr 1
  funext ra
  simp [Function.comp_def, List.map_map]

lemma length_normalize (sqrt : ℚ → ℚ) (e : List (List ℚ)) :
    (normalize_embeddings sqrt e).length = e.length := by
  simp [normalize_embeddings]

lemma npEqAll_eq_of_same_length {a b : List (List ℚ)}
    (hlen : a.length = b.length) (hfast : npEqAll a b = true) : a = b := by
  unfold npEqAll at hfast
  rw [if_pos hlen] at hfast
  exact eq_of_beq hfast

lemma squeeze_row_vec : ∀ {l xs : List ℚ}, squeeze_row l = Squeezed.vec xs → xs = l
  | [], _, h => (Squeezed.vec.inj h).symm
  | [_], _, h => nomatch h
  | _ :: _ :: _, _, h => (Squeezed.vec.inj h).symm

lemma filter_orderedInsert (x : String × ℚ) (l : List (String × ℚ)) (s : ℚ) :
    (List.orderedInsert scoreGE x l).filter (fun p => p.2 == s) =
      (x :: l).filter (fun p => p.2 == s) := by
  induction l with
  | nil => rfl
  | cons y ys ih =>
      rw [List.orderedInsert]
      by_cases hxy : scoreGE x y
      · rw [if_pos hxy]
      · rw [if_neg hxy]
        have hlt : x.2 < y.2 := lt_of_not_le hxy
        by_cases hy : y.2 = s
        · have hx : ¬x.2 = s := fun hx => absurd (hx.trans hy.symm) (ne_of_lt hlt)
          simp [List.filter_cons, hy, hx, ih]
        · by_cases hx : x.2 = s <;> simp [List.filter_cons, hy, hx, ih]

lemma filter_sort_by_score (l : List (String × ℚ)) (s : ℚ) :
    (sort_by_score_desc l).filter (fun p => p.2 == s) =
      l.filter (fun p => p.2 == s) := by
  induction l with
  | nil => rfl
  | cons x xs ih =>
      rw [sort_by_score_desc, List.insertionSort, filter_orderedInsert]
      simp only [sort_by_score_desc] at ih
      by_cases hx : x.2 = s <;> simp [List.filter_cons, hx, ih]

/-! ### Claim theorems -/

/-- C1 (code bug): the spec says the binary-mode output container is
preallocated with shape `[num_texts, dim/64]`, but `embed` preallocates
`np.empty((num_texts, embedding_dim))` with the full dense `dim` even when
`self.binary` is set; the packed batches have `dim/64` columns, so at
`dim = 128` the fill `pooled_embeddings[i:i+n] = batch_embeddings` cannot
broadcast a `(n, 2)` batch into `(n, 128)` and raises a `ValueError`. -/
theorem embed_binary_prealloc_mismatch :
    embed_prealloc_shape 1 128 = (1, 128) ∧
    packbits_cols 128 = 2 ∧
    (embed_prealloc_shape 1 128).2 ≠ packbits_cols 128 ∧
    slice_assign_ok (embed_prealloc_shape 1 128).2 (packbits_cols 128) = false := by
  decide

/-- C4: `embed` clamps every token id into `[0, vocab_size - 1]` before the
row gather: the clamped id is a valid row index (no error possible), and any
id `≥ vocab_size` gathers exactly the row of the last valid id
`vocab_size - 1`, hence contributes the same pooled value. -/
theorem embed_clamp_ids (embedding : List (List ℚ)) (id : ℤ)
    (hne : embedding ≠ []) :
    0 ≤ clip_id embedding.length id ∧
    (clip_id embedding.length id).toNat < embedding.length ∧
    ((embedding.length : ℤ) ≤ id →
      gather_row embedding id =
        gather_row embedding ((embedding.length : ℤ) - 1)) := by
  have hn : 0 < embedding.length := List.length_pos.mpr hne
  refine ⟨le_max_left _ _, ?_, ?_⟩
  · unfold clip_id
    omega
  · intro hid
    have hcl : clip_id embedding.length id =
        clip_id embedding.length ((embedding.length : ℤ) - 1) := by
      unfold clip_id
      omega
    unfold gather_row
    rw [hcl]

/-- C4 witness: a vocabulary of 3 rows and the out-of-range id 103. -/
theorem embed_clamp_ids_witness :
    0 ≤ clip_id 3 103 ∧ (clip_id 3 103).toNat < 3 ∧
    gather_row [[(1 : ℚ)], [2], [3]] 103 =
      gather_row [[(1 : ℚ)], [2], [3]] 2 := by
  have h := embed_clamp_ids [[(1 : ℚ)], [2], [3]] 103 (by decide)
  exact ⟨h.1, h.2.1, h.2.2 (by decide)⟩

/-- C8 counterexample: the list `[str "a", other]` contains a non-string
element, yet `embed`'s validation succeeds, because only `texts[0]` is
checked by `if texts and not isinstance(texts[0], str)`. -/
theorem embed_check_cex :
    PyVal.other ∈ [PyVal.str "a", PyVal.other] ∧
    embed_check [PyVal.str "a", PyVal.other] =
      Except.ok [PyVal.str "a", PyVal.other] :=
  ⟨by simp, rfl⟩

/-- C8 (amended): `embed`'s list validation raises a TypeError-kind error
exactly when the list is non-empty and its first element is not a string;
non-string elements after a string first element are not detected. -/
theorem embed_check_first_element_only (texts : List PyVal) :
    (∃ msg, embed_check texts = Except.error msg) ↔
      ∃ rest, texts = PyVal.other :: rest := by
  cases texts with
  | nil => simp [embed_check]
  | cons t ts => cases t <;> simp [embed_check, PyVal.isStr]

/-- C9: the list returned by `deduplicate` is a subsequence of the input
preserving relative order, for every possible set of duplicate indices that
the batched comparison returns. -/
theorem deduplicate_select_sublist (dup : ℕ → Bool) (docs : List String) :
    (deduplicate_select dup docs).Sublist docs :=
  enumFrom_filter_map_sublist (fun p => !dup p.1) docs 0

/-- C10: with a single document, the `1 × 1` score matrix squeezes to a 0-d
scalar, so `rank` (and `filter`, via the same squeeze) raises a TypeError
at `zip` instead of returning its documented output. -/
theorem rank_filter_singleton_error (doc : String) (s q threshold : ℚ) :
    rank [doc] [s] =
      Except.error "TypeError: zip argument 2 must support iteration" ∧
    filter [doc] [q] threshold =
      Except.error "TypeError: iteration over a 0-d array" :=
  ⟨rfl, rfl⟩

/-- C3: for a text whose attention mask sums to zero (all entries of the
0/1-valued mask are zero), `avg_pool` divides by the floor
`max(sum(mask), 1.0) = 1`, so the pooled embedding is exactly the zero
vector — in particular no NaN/Inf can arise, the division is by 1. -/
theorem avg_pool_zero_mask (dim : ℕ) (x : List (List (List ℚ)))
    (mask : List (List ℚ)) (xi : List (List ℚ)) (mi : List ℚ)
    (hmem : (xi, mi) ∈ x.zip mask)
    (h01 : ∀ m ∈ mi, m = 0 ∨ m = 1) (hsum : mi.sum = 0)
    (hdim : ∀ t ∈ xi, t.length = dim) :
    avg_pool_row dim xi mi = List.replicate dim 0 ∧
    List.replicate dim 0 ∈ avg_pool dim x mask := by
  have hz : ∀ m ∈ mi, m = 0 := mask_all_zero mi h01 hsum
  have hrow : avg_pool_row dim xi mi = List.replicate dim 0 := by
    unfold avg_pool_row
    have hms : max mi.sum 1 = 1 := by rw [hsum]; exact max_eq_right zero_le_one
    have hmap : ∀ v ∈ (xi.zip mi).map fun tm => tm.1.map (· * tm.2),
        v = List.replicate dim 0 := by
      intro v hv
      rcases List.mem_map.mp hv with ⟨⟨t, m⟩, htm, rfl⟩
      have hm0 : m = 0 := hz m (List.of_mem_zip htm).2
      have ht : t.length = dim := hdim t (List.of_mem_zip htm).1
      rw [← ht, hm0]
      simp
    rw [vsum_zero dim _ hmap, hms]
    simp
  refine ⟨hrow, ?_⟩
  have hmem2 := List.mem_map_of_mem
    (fun xm : List (List ℚ) × List ℚ => avg_pool_row dim xm.1 xm.2) hmem
  rw [avg_pool]
  simpa [hrow] using hmem2

/-- C3 witness: a two-token text with an all-zero mask pools to the zero
vector of dimension 2. -/
theorem avg_pool_zero_mask_witness :
    avg_pool_row 2 [[1, 2], [3, 4]] [0, 0] = List.replicate 2 0 ∧
    List.replicate 2 0 ∈ avg_pool 2 [[[1, 2], [3, 4]]] [[0, 0]] :=
  avg_pool_zero_mask 2 [[[1, 2], [3, 4]]] [[0, 0]] [[1, 2], [3, 4]] [0, 0]
    (List.mem_singleton.mpr rfl) (by simp) (by simp) (by simp)

/-- C2 counterexample: two failures of the stated claim in dense mode.
With `a = [[2,0],[2,0]]` (two rows) and `b = [[2,0]]` (one row) the
`(a == b).all()` fast path triggers by broadcasting, replaces `b` with
`a`, and the result is `2 × 2` — not the claimed `[|a|, |b|] = 2 × 1`.
And with `|a| = 3`, `|b| = 2` — both exceeding 1, a case the claim
explicitly includes — the elementwise comparison raises a `ValueError`
(numpy >= 1.25), so no matrix is returned at all. -/
theorem vector_similarity_shape_cex :
    (¬ ∃ m, vector_similarity_dense (fun x => x)
        (NpArr.mat [[2, 0], [2, 0]]) (NpArr.mat [[2, 0]]) = Except.ok m ∧
        m.map List.length = List.replicate 2 1) ∧
    vector_similarity_dense (fun x => x)
        (NpArr.mat [[3, 0], [3, 1], [3, 2]]) (NpArr.mat [[4, 0], [4, 1]]) =
      Except.error "ValueError: operands could not be broadcast together" := by
  constructor
  · rintro ⟨m, hm, hlen⟩
    have hfast : npEqAll [[(2 : ℚ), 0], [2, 0]] [[(2 : ℚ), 0]] = true := by
      decide
    have hred : vector_similarity_dense (fun x => x)
        (NpArr.mat [[(2 : ℚ), 0], [2, 0]]) (NpArr.mat [[(2 : ℚ), 0]]) =
        Except.ok (cosine_similarity (fun x => x) [[(2 : ℚ), 0], [2, 0]]
          [[(2 : ℚ), 0]]) := rfl
    rw [hred] at hm
    rw [← Except.ok.inj hm] at hlen
    rw [cosine_similarity, if_pos hfast, map_length_matmulT,
      length_normalize] at hlen
    exact absurd hlen (by decide)
  · rfl

/-- C2 (amended): `vector_similarity` promotes 1-D inputs to a single row;
in binary (Hamming) mode it returns an `[|a|, |b|]` score matrix
unconditionally.  In dense (cosine) mode the body first evaluates
`(a == b)`: on numpy >= 1.25 this raises a `ValueError` when the promoted
row counts differ and neither is 1, so differing multi-row operands get an
error instead of a matrix; when the comparison is defined, the result is
`[|a|, |b|]` whenever the operands have equal row counts or are not
broadcast-equal (otherwise the self-similarity fast path replaces `b` with
`a` and yields `[|a|, |a|]`). -/
theorem vector_similarity_shape (sqrt : ℚ → ℚ) (a b : NpArr ℚ)
    (a2 b2 : NpArr ℕ) (d : ℕ)
    (ha : ∀ row ∈ expand_dims a, row.length = d)
    (hb : ∀ row ∈ expand_dims b, row.length = d) :
    (np_rows_broadcastable (expand_dims a) (expand_dims b) = true →
      ((expand_dims a).length = (expand_dims b).length ∨
        npEqAll (expand_dims a) (expand_dims b) = false) →
      ∃ m, vector_similarity_dense sqrt a b = Except.ok m ∧
        m.map List.length =
          List.replicate (expand_dims a).length (expand_dims b).length) ∧
    (np_rows_broadcastable (expand_dims a) (expand_dims b) = false →
      vector_similarity_dense sqrt a b =
        Except.error "ValueError: operands could not be broadcast together") ∧
    (vector_similarity_binary a2 b2).map List.length =
      List.replicate (expand_dims a2).length (expand_dims b2).length := by
  refine ⟨?_, ?_, ?_⟩
  · intro hbc hnf
    refine ⟨cosine_similarity sqrt (expand_dims a) (expand_dims b), ?_, ?_⟩
    · unfold vector_similarity_dense
      rw [if_pos hbc]
    · unfold cosine_similarity
      by_cases hf : npEqAll (expand_dims a) (expand_dims b)
      · rw [if_pos hf]
        rcases hnf with hlen | hfalse
        · rw [map_length_matmulT, length_normalize, hlen]
        · rw [hfalse] at hf; cases hf
      · rw [if_neg hf, map_length_matmulT, length_normalize,
          length_normalize]
  · intro hbc
    unfold vector_similarity_dense
    rw [if_neg]
    rw [hbc]
    simp
  · rw [vector_similarity_binary, hamming_similarity_eq_map]
    exact map_length_map_map _ _ _

/-- C2 witness: a 1-D dense query of dimension 2 against three dense rows
gives a `1 × 3` matrix; a two-row binary batch against a 1-D binary code
gives `2 × 1`. -/
theorem vector_similarity_shape_witness :
    ∃ m, vector_similarity_dense (fun x => x) (NpArr.vec [1, 0])
        (NpArr.mat [[1, 0], [0, 1], [0, 0]]) = Except.ok m ∧
      m.map List.length = List.replicate 1 3 := by
  have h := vector_similarity_shape (fun x => x) (NpArr.vec [1, 0])
    (NpArr.mat [[1, 0], [0, 1], [0, 0]]) (NpArr.mat [[0], [1]])
    (NpArr.vec [3]) 2 (by decide) (by decide)
  exact h.1 (by decide) (Or.inr (by decide))

/-- C5 counterexample: the fast path triggers on elementwise broadcast
equality, not only on the identical array object: with
`a = [[1,0],[1,0]]` and `b = [[1,0]]` it fires and produces a `2 × 2`
matrix, while normalizing both operands separately gives `2 × 1` — the
results are not identical. -/
theorem cosine_fast_path_cex :
    npEqAll [[(1 : ℚ), 0], [1, 0]] [[(1 : ℚ), 0]] = true ∧
    cosine_similarity (fun x => x) [[(1 : ℚ), 0], [1, 0]] [[(1 : ℚ), 0]] ≠
      cosine_similarity_twice (fun x => x) [[(1 : ℚ), 0], [1, 0]]
        [[(1 : ℚ), 0]] := by
  have hfast : npEqAll [[(1 : ℚ), 0], [1, 0]] [[(1 : ℚ), 0]] = true := by
    decide
  refine ⟨hfast, fun h => ?_⟩
  have h2 := congrArg (List.map List.length) h
  rw [cosine_similarity, if_pos hfast, cosine_similarity_twice,
    map_length_matmulT, map_length_matmulT, length_normalize,
    length_normalize] at h2
  exact absurd h2 (by decide)

/-- C5 (amended): whenever the `(a == b).all()` fast path triggers on
operands with equal row counts (which forces `a = b`, covering the
identical-array case the spec describes), `cosine_similarity` returns
exactly the matrix obtained by normalizing both operands separately. -/
theorem cosine_fast_path_eq (sqrt : ℚ → ℚ) (a b : List (List ℚ))
    (hlen : a.length = b.length) (hfast : npEqAll a b = true) :
    cosine_similarity sqrt a b = cosine_similarity_twice sqrt a b := by
  have hab : a = b := npEqAll_eq_of_same_length hlen hfast
  subst hab
  unfold cosine_similarity cosine_similarity_twice
  rw [if_pos hfast]

/-- C5 witness: a self-similarity call on a concrete one-row matrix. -/
theorem cosine_fast_path_eq_witness :
    cosine_similarity (fun x => x) [[(1 : ℚ), 2]] [[(1 : ℚ), 2]] =
      cosine_similarity_twice (fun x => x) [[(1 : ℚ), 2]] [[(1 : ℚ), 2]] :=
  cosine_fast_path_eq (fun x => x) [[(1 : ℚ), 2]] [[(1 : ℚ), 2]] rfl
    (by decide)

/-- C6: for packed codes of `w` 64-bit words, `hamming_similarity` holds the
value `1 - 2 * (d / (w * 64))` for each pair of rows, where `d` is the total
count of differing bits; `d = 0` maps to similarity `1`, `d = w * 64` (all
bits differing) to `-1`, and every intermediate distance strictly inside
`(-1, 1)`. -/
theorem hamming_similarity_range (a b : List (List ℕ)) (w : ℕ)
    (hw : 0 < w) (hca : (a.headD []).length = w)
    (ra rb : List ℕ) (hra : ra ∈ a) (hrb : rb ∈ b)
    (hral : ra.length = w) (hrbl : rb.length = w) :
    (∃ row ∈ hamming_similarity a b,
        1 - 2 * ((hamming_dist_pair ra rb : ℚ) / (((w : ℕ) : ℚ) * 64)) ∈ row) ∧
    (hamming_dist_pair ra rb = 0 →
      1 - 2 * ((hamming_dist_pair ra rb : ℚ) / (((w : ℕ) : ℚ) * 64)) = 1) ∧
    (hamming_dist_pair ra rb = w * 64 →
      1 - 2 * ((hamming_dist_pair ra rb : ℚ) / (((w : ℕ) : ℚ) * 64)) = -1) ∧
    (0 < hamming_dist_pair ra rb → hamming_dist_pair ra rb < w * 64 →
      -1 < 1 - 2 * ((hamming_dist_pair ra rb : ℚ) / (((w : ℕ) : ℚ) * 64)) ∧
        1 - 2 * ((hamming_dist_pair ra rb : ℚ) / (((w : ℕ) : ℚ) * 64)) < 1) := by
  have hwq : (0 : ℚ) < ((w : ℕ) : ℚ) * 64 := by
    have : (0 : ℚ) < ((w : ℕ) : ℚ) := by exact_mod_cast hw
    linarith
  refine ⟨?_, ?_, ?_, ?_⟩
  · rw [hamming_similarity_eq_map, hca]
    push_cast
    exact ⟨_, List.mem_map_of_mem _ hra, List.mem_map_of_mem _ hrb⟩
  · intro h
    rw [h]
    simp
  · intro h
    rw [h]
    push_cast
    rw [div_self (ne_of_gt hwq)]
    ring
  · intro h1 h2
    have hq1 : (0 : ℚ) < (hamming_dist_pair ra rb : ℚ) := by exact_mod_cast h1
    have hq2 : (hamming_dist_pair ra rb : ℚ) < ((w : ℕ) : ℚ) * 64 := by
      exact_mod_cast h2
    have hd0 : 0 < (hamming_dist_pair ra rb : ℚ) / (((w : ℕ) : ℚ) * 64) :=
      div_pos hq1 hwq
    have hd1 : (hamming_dist_pair ra rb : ℚ) / (((w : ℕ) : ℚ) * 64) < 1 :=
      (div_lt_one hwq).mpr hq2
    constructor <;> linarith

/-- C6 witness: one-word codes `[0]` and `[3]` differ in 2 bits; the
similarity value is `1 - 2 * (2 / 64) = 15 / 16`. -/
theorem hamming_similarity_range_witness :
    (∃ row ∈ hamming_similarity [[0]] [[3]],
        1 - 2 * ((hamming_dist_pair [0] [3] : ℚ) / (((1 : ℕ) : ℚ) * 64)) ∈ row) ∧
    (hamming_dist_pair [0] [3] = 0 →
      1 - 2 * ((hamming_dist_pair [0] [3] : ℚ) / (((1 : ℕ) : ℚ) * 64)) = 1) ∧
    (hamming_dist_pair [0] [3] = 1 * 64 →
      1 - 2 * ((hamming_dist_pair [0] [3] : ℚ) / (((1 : ℕ) : ℚ) * 64)) = -1) ∧
    (0 < hamming_dist_pair [0] [3] → hamming_dist_pair [0] [3] < 1 * 64 →
      -1 < 1 - 2 * ((hamming_dist_pair [0] [3] : ℚ) / (((1 : ℕ) : ℚ) * 64)) ∧
        1 - 2 * ((hamming_dist_pair [0] [3] : ℚ) / (((1 : ℕ) : ℚ) * 64)) < 1) :=
  hamming_similarity_range [[0]] [[3]] 1 (by decide) (by decide) [0] [3]
    (by decide) (by decide) (by decide) (by decide)

/-- C7 counterexample: with a single document the claim fails — `rank` does
not return a sorted list of pairs at all, it raises a TypeError because the
`1 × 1` score matrix squeezes to a 0-d scalar. -/
theorem rank_singleton_cex :
    rank ["a"] [(1 : ℚ)] =
      Except.error "TypeError: zip argument 2 must support iteration" :=
  rfl

/-- C7 (amended): whenever `rank` returns a result list (the squeezed score
row is 1-D, i.e. the document count is not exactly one), that list is a
permutation of the `(doc, score)` pairs, sorted descending by score, and the
sort is stable: pairs with equal scores keep their original input order
(their subsequence filtered at any fixed score is unchanged). -/
theorem rank_sorted_stable (docs : List String) (score_row : List ℚ)
    (res : List (String × ℚ)) (h : rank docs score_row = Except.ok res) :
    res.Perm (docs.zip score_row) ∧ List.Sorted scoreGE res ∧
    ∀ s : ℚ, res.filter (fun p => p.2 == s) =
      (docs.zip score_row).filter (fun p => p.2 == s) := by
  unfold rank at h
  cases hsq : squeeze_row score_row with
  | scalar x => rw [hsq] at h; exact absurd h (by simp)
  | vec xs =>
      rw [hsq] at h
      have hxs : xs = score_row := squeeze_row_vec hsq
      subst hxs
      have hres : res = sort_by_score_desc (docs.zip xs) :=
        (Except.ok.inj h).symm
      subst hres
      exact ⟨List.perm_insertionSort scoreGE _,
        List.sorted_insertionSort scoreGE _,
        fun s => filter_sort_by_score _ s⟩

/-- C7 witness: three documents with equal scores come back in their
original order `["a", "b", "c"]` — the spec's rank-stability test. -/
theorem rank_sorted_stable_witness :
    ([("a", (1 : ℚ)), ("b", 1), ("c", 1)]).Perm
      (["a", "b", "c"].zip [1, 1, 1]) ∧
    List.Sorted scoreGE [("a", (1 : ℚ)), ("b", 1), ("c", 1)] ∧
    ([("a", (1 : ℚ)), ("b", 1), ("c", 1)]).filter (fun p => p.2 == 1) =
      (["a", "b", "c"].zip [1, 1, 1]).filter (fun p => p.2 == 1) := by
  have h := rank_sorted_stable ["a", "b", "c"] [1, 1, 1]
    [("a", 1), ("b", 1), ("c", 1)] (by rfl)
  exact ⟨h.1, h.2.1, h.2.2 1⟩

end WordLlama
